import Mathlib

/-!
# Shallow embedding of the grocery-list bot core

This file embeds, in Lean, the data model and operations of the
`vibe-grocery-bot` repository (the canonical revision under `src/db/` and
`src/handlers/`) and settles the specification claims against it.

Modelling conventions:
* The SQLite `items` table is a list of rows in insertion order together
  with the `AUTOINCREMENT` counter; `id` is the primary key, so a
  well-formed store has pairwise-distinct ids (`ItemStore.WF`).
* Store operations are total Lean functions returning the new store and,
  where the Rust function reports it, the number of affected rows
  (`rows_affected`).  Fallibility in the Rust code comes only from
  storage I/O, which the embedding does not model.
* The `chat_state` table (`chat_id PRIMARY KEY, last_list_message_id`)
  is an association list; the primary key makes keys pairwise distinct.
* The `delete_session` table is keyed by `user_id`; every query the
  delete handlers issue is scoped to the acting user, so the embedding
  keeps the row of the acting user as an `Option DeleteSession`.
* Outbound Telegram calls (send / edit / delete message) have no effect
  on the database.  Where a claim is about such calls they are recorded
  in an effect trace (`Eff`); elsewhere they are elided.
-/

namespace VibeGrocery

/-- A row of the `items` table:
`id INTEGER PRIMARY KEY AUTOINCREMENT, chat_id INTEGER, text TEXT, done BOOLEAN`. -/
structure ItemRow where
  id : Int
  chat_id : Int
  text : String
  done : Bool
deriving DecidableEq, Repr

/-- The projection `SELECT id, text, done` used by `list_items`
(struct `Item` in `src/db/items.rs`). -/
structure Item where
  id : Int
  text : String
  done : Bool
deriving DecidableEq, Repr

/-- The `items` table: rows in insertion order plus the autoincrement
counter for the next fresh id. -/
structure ItemStore where
  rows : List ItemRow
  nextId : Int
deriving DecidableEq, Repr

/-- Well-formedness enforced by the schema: `id` is the primary key, so
ids are pairwise distinct across the whole table (hence across lists). -/
def ItemStore.WF (st : ItemStore) : Prop :=
  (st.rows.map ItemRow.id).Nodup

/-- The SQL row filter `WHERE id = ? AND chat_id = ?` shared by
`toggle_item_count` and `delete_item_count`. -/
def rowMatches (chat id : Int) (r : ItemRow) : Bool :=
  r.id == id && r.chat_id == chat

/-- `add_item_count`: `INSERT INTO items (chat_id, text) VALUES (?, ?)`;
one row is inserted with a fresh autoincrement id and `done`
defaulting to false. -/
def add_item_count (st : ItemStore) (chat : Int) (text : String) : ItemStore × Nat :=
  ({ rows := st.rows ++ [⟨st.nextId, chat, text, false⟩], nextId := st.nextId + 1 }, 1)

/-- `add_items_count`: empty input returns 0 before touching the store;
otherwise a multi-row `INSERT` adds one row per text. -/
def add_items_count (st : ItemStore) (chat : Int) (texts : List String) : ItemStore × Nat :=
  if texts.isEmpty then (st, 0)
  else (texts.foldl (fun s t => (add_item_count s chat t).1) st, texts.length)

/-- `list_items`: `SELECT id, text, done FROM items WHERE chat_id = ? ORDER BY id`.
Rows are stored in insertion order and ids are assigned increasingly, so
filtering preserves the `ORDER BY id` order. -/
def list_items (st : ItemStore) (chat : Int) : List Item :=
  (st.rows.filter (fun r => r.chat_id == chat)).map (fun r => ⟨r.id, r.text, r.done⟩)

/-- `toggle_item_count`:
`UPDATE items SET done = NOT done WHERE id = ? AND chat_id = ?`,
returning `rows_affected`. -/
def toggle_item_count (st : ItemStore) (chat id : Int) : ItemStore × Nat :=
  ({ st with
      rows := st.rows.map (fun r => if rowMatches chat id r then { r with done := !r.done } else r) },
   st.rows.countP (rowMatches chat id))

/-- `delete_item_count`:
`DELETE FROM items WHERE id = ? AND chat_id = ?`, returning `rows_affected`. -/
def delete_item_count (st : ItemStore) (chat id : Int) : ItemStore × Nat :=
  ({ st with rows := st.rows.filter (fun r => !rowMatches chat id r) },
   st.rows.countP (rowMatches chat id))

/-- `delete_item`: `delete_item_count` with the count discarded. -/
def delete_item (st : ItemStore) (chat id : Int) : ItemStore :=
  (delete_item_count st chat id).1

/-- The row filter of the bulk delete: `chat_id = ? AND id IN (?, ...)`. -/
def rowInIds (chat : Int) (ids : List Int) (r : ItemRow) : Bool :=
  r.chat_id == chat && ids.contains r.id

/-- `delete_items_count`: empty id list returns 0 before touching the
store; otherwise `DELETE FROM items WHERE chat_id = ? AND id IN (...)`. -/
def delete_items_count (st : ItemStore) (chat : Int) (ids : List Int) : ItemStore × Nat :=
  if ids.isEmpty then (st, 0)
  else ({ st with rows := st.rows.filter (fun r => !rowInIds chat ids r) },
        st.rows.countP (rowInIds chat ids))

/-! ### Basic facts about the row filter -/

theorem rowMatches_eq_true {chat id : Int} {r : ItemRow} :
    rowMatches chat id r = true ↔ r.id = id ∧ r.chat_id = chat := by
  simp [rowMatches]

/-- In a well-formed store, a row filter naming the id of a row owned by a
different list matches no row. -/
theorem rowMatches_false_of_other_list {st : ItemStore} {r : ItemRow} {b : Int}
    (hwf : st.WF) (hr : r ∈ st.rows) (hb : r.chat_id ≠ b) :
    ∀ q ∈ st.rows, rowMatches b r.id q = false := by
  intro q hq
  by_contra h
  rw [Bool.not_eq_false, rowMatches_eq_true] at h
  have hqr : q = r := List.inj_on_of_nodup_map hwf hq hr h.1
  exact hb (hqr ▸ h.2)

/-- **C1** Cross-list isolation: in a well-formed store, for distinct
lists A and B and an item `r` of list A, both `toggle_item_count` and
`delete_item_count` naming `r.id` but scoped to B report zero affected
rows and leave the whole store — in particular row `r` with its id, text
and done flag — unchanged (and, being total, are not an error). -/
theorem c1_cross_list_isolation (st : ItemStore) (r : ItemRow) (b : Int)
    (hwf : st.WF) (hr : r ∈ st.rows) (hb : r.chat_id ≠ b) :
    toggle_item_count st b r.id = (st, 0) ∧ delete_item_count st b r.id = (st, 0) := by
  have hfalse := rowMatches_false_of_other_list hwf hr hb
  have hcount : st.rows.countP (rowMatches b r.id) = 0 := by
    rw [List.countP_eq_zero]
    intro q hq
    simp [hfalse q hq]
  have hmap : st.rows.map
      (fun q => if rowMatches b r.id q then { q with done := !q.done } else q) = st.rows := by
    have hcongr : st.rows.map
        (fun q => if rowMatches b r.id q then { q with done := !q.done } else q) =
        st.rows.map id :=
      List.map_congr_left (fun q hq => by simp [hfalse q hq])
    simpa using hcongr
  have hfilter : st.rows.filter (fun q => !rowMatches b r.id q) = st.rows := by
    rw [List.filter_eq_self]
    intro q hq
    simp [hfalse q hq]
  constructor
  · unfold toggle_item_count
    rw [hcount, hmap]
  · unfold delete_item_count
    rw [hcount, hfilter]

/-- **C1 witness**: isolation at a concrete store with an item in list 1
targeted through list 2. -/
theorem c1_cross_list_isolation_witness :
    toggle_item_count ⟨[⟨5, 1, "Milk", false⟩, ⟨6, 2, "Eggs", true⟩], 7⟩ 2 5 =
      (⟨[⟨5, 1, "Milk", false⟩, ⟨6, 2, "Eggs", true⟩], 7⟩, 0) ∧
    delete_item_count ⟨[⟨5, 1, "Milk", false⟩, ⟨6, 2, "Eggs", true⟩], 7⟩ 2 5 =
      (⟨[⟨5, 1, "Milk", false⟩, ⟨6, 2, "Eggs", true⟩], 7⟩, 0) := by
  exact c1_cross_list_isolation ⟨[⟨5, 1, "Milk", false⟩, ⟨6, 2, "Eggs", true⟩], 7⟩
    ⟨5, 1, "Milk", false⟩ 2 (by unfold ItemStore.WF; decide) (by simp) (by decide)

/-- **C9** Empty bulk input is a harmless no-op: `add_items_count` and
`delete_items_count` on an empty input list return affected count 0 and
leave the store untouched (and, being total, are not an error). -/
theorem c9_empty_bulk_noop (st : ItemStore) (chat : Int) :
    add_items_count st chat [] = (st, 0) ∧ delete_items_count st chat [] = (st, 0) := by
  constructor <;> rfl

/-! ## Render pointer (`chat_state` table, `src/db/chat_state.rs`) -/

/-- The `chat_state` table as an association list
`chat_id ↦ last_list_message_id`; `chat_id` is the primary key. -/
abbrev ChatState := List (Int × Int)

/-- Primary-key well-formedness: chat ids are pairwise distinct. -/
def ChatState.WF (cs : ChatState) : Prop :=
  (cs.map Prod.fst).Nodup

/-- `get_last_list_message_id`:
`SELECT last_list_message_id FROM chat_state WHERE chat_id = ?`. -/
def get_last_list_message_id (cs : ChatState) (chat : Int) : Option Int :=
  (cs.find? (fun p => p.1 == chat)).map Prod.snd

/-- `update_last_list_message_id`:
`INSERT INTO chat_state (chat_id, last_list_message_id) VALUES (?, ?)
 ON CONFLICT(chat_id) DO UPDATE SET last_list_message_id = excluded.last_list_message_id` —
an upsert: the existing row for the chat is updated in place, otherwise
a new row is inserted. -/
def update_last_list_message_id (cs : ChatState) (chat : Int) (mid : Int) : ChatState :=
  if cs.any (fun p => p.1 == chat) then
    cs.map (fun p => if p.1 == chat then (chat, mid) else p)
  else cs ++ [(chat, mid)]

/-- `clear_last_list_message_id`: `DELETE FROM chat_state WHERE chat_id = ?`. -/
def clear_last_list_message_id (cs : ChatState) (chat : Int) : ChatState :=
  cs.filter (fun p => !(p.1 == chat))

/-! ## Database state seen by the handlers -/

/-- A row of the `delete_session` table for one user
(`src/db/delete_session.rs`, struct `DeleteSession`): the list being
edited, the selected item-id set (stored serialized, parsed to a set on
read), the optional group-notice message reference and the optional DM
panel message reference. -/
structure DeleteSession where
  chat_id : Int
  selected : Finset Int
  notice : Option (Int × Int)
  dm_message_id : Option Int
deriving DecidableEq

/-- The database as seen by the handlers acting for one fixed user:
the `items` table, the `chat_state` table, and that user's
`delete_session` row (`none` when no row exists — all session queries
are `WHERE user_id = ?` for the acting user). -/
structure DB where
  items : ItemStore
  chat_state : ChatState
  session : Option DeleteSession
deriving DecidableEq

/-- The database effect of `send_list` (`src/handlers/list.rs`): the old
pointer message is deleted best-effort (transport only), the items are
read, either the empty-list message or the rendered list is sent, and in
both branches the newly sent message's id `sentRef` is stored via
`update_last_list_message_id`.  `sentRef` is the reference returned by
the transport for the send. -/
def send_list (db : DB) (chat : Int) (sentRef : Int) : DB :=
  { db with chat_state := update_last_list_message_id db.chat_state chat sentRef }

/-- A sequence of consecutive `send_list` calls for one chat; `refs` are
the message references returned by the successive sends. -/
def send_list_iter (db : DB) (chat : Int) (refs : List Int) : DB :=
  refs.foldl (fun d r => send_list d chat r) db

/-! ### Upsert lemmas -/

theorem find?_upsert_map_of_mem (cs : ChatState) (chat mid : Int)
    (h : ∃ p ∈ cs, p.1 = chat) :
    (cs.map (fun p => if p.1 == chat then (chat, mid) else p)).find?
      (fun p => p.1 == chat) = some (chat, mid) := by
  induction cs with
  | nil => simp at h
  | cons q t ih =>
    by_cases hq : q.1 == chat
    · simp [List.find?, hq]
    · obtain ⟨p, hp, hpc⟩ := h
      rcases List.mem_cons.mp hp with rfl | hp'
      · exact absurd (by simp [hpc]) hq
      · simpa [List.find?, hq] using ih ⟨p, hp', hpc⟩

theorem update_last_list_message_id_get (cs : ChatState) (chat mid : Int) :
    get_last_list_message_id (update_last_list_message_id cs chat mid) chat = some mid := by
  unfold update_last_list_message_id get_last_list_message_id
  split
  · rename_i hany
    rw [List.any_eq_true] at hany
    obtain ⟨p, hp, hpc⟩ := hany
    rw [find?_upsert_map_of_mem cs chat mid ⟨p, hp, by simpa using hpc⟩]
    rfl
  · rename_i hany
    rw [Bool.not_eq_true, List.any_eq_false] at hany
    have hfind : cs.find? (fun p => p.1 == chat) = none := by
      rw [List.find?_eq_none]
      intro p hp
      exact hany p hp
    rw [List.find?_append, hfind]
    simp [List.find?]

theorem countP_fst_eq_count (cs : ChatState) (chat : Int) :
    cs.countP (fun p => p.1 == chat) = (cs.map Prod.fst).count chat := by
  rw [List.count, List.countP_map]
  rfl

theorem update_last_list_message_id_count (cs : ChatState) (chat mid : Int)
    (hwf : cs.WF) :
    (update_last_list_message_id cs chat mid).countP (fun p => p.1 == chat) = 1 := by
  unfold update_last_list_message_id
  split
  · rename_i hany
    rw [List.any_eq_true] at hany
    obtain ⟨p, hp, hpc⟩ := hany
    have hmem : chat ∈ cs.map Prod.fst :=
      List.mem_map.mpr ⟨p, hp, by simpa using hpc.symm⟩
    have hsame : (cs.map (fun p => if p.1 == chat then (chat, mid) else p)).countP
        (fun p => p.1 == chat) = cs.countP (fun p => p.1 == chat) := by
      rw [List.countP_map]
      apply List.countP_congr
      intro q hq
      by_cases hc : q.1 == chat <;> simp [hc, Function.comp]
    rw [hsame, countP_fst_eq_count]
    exact List.count_eq_one_of_mem hwf hmem
  · rename_i hany
    rw [Bool.not_eq_true, List.any_eq_false] at hany
    have hzero : cs.countP (fun p => p.1 == chat) = 0 :=
      List.countP_eq_zero.mpr (fun p hp => by simpa using hany p hp)
    simp [List.countP_append, hzero, List.countP_cons]

theorem update_last_list_message_id_WF (cs : ChatState) (chat mid : Int)
    (hwf : cs.WF) : (update_last_list_message_id cs chat mid).WF := by
  unfold update_last_list_message_id
  split
  · rename_i hany
    have hfst : (cs.map (fun p => if p.1 == chat then (chat, mid) else p)).map Prod.fst =
        cs.map Prod.fst := by
      rw [List.map_map]
      apply List.map_congr_left
      intro q hq
      by_cases hc : q.1 == chat <;> simp_all [Function.comp]
    unfold ChatState.WF
    rw [hfst]
    exact hwf
  · rename_i hany
    rw [Bool.not_eq_true, List.any_eq_false] at hany
    unfold ChatState.WF
    rw [List.map_append]
    apply List.Nodup.append hwf (by simp)
    intro a ha hb
    obtain ⟨p, hp, rfl⟩ := List.mem_map.mp ha
    have := hany p hp
    simp only [List.map_cons, List.map_nil, List.mem_cons, List.not_mem_nil, or_false] at hb
    simp [hb] at this

theorem send_list_iter_WF (db : DB) (chat : Int) (rs : List Int)
    (hwf : db.chat_state.WF) : (send_list_iter db chat rs).chat_state.WF := by
  induction rs generalizing db with
  | nil => exact hwf
  | cons a t ih => exact ih _ (update_last_list_message_id_WF _ _ _ hwf)

/-- **C5** Pointer replace-not-append: starting from a well-formed
`chat_state`, after any nonempty run of consecutive "show fresh list"
(`send_list`) calls for one chat whose transport-returned message
references are `rs ++ [r]`, exactly one pointer row exists for that chat
and it stores `r`, the reference of the most recent send. -/
theorem c5_pointer_replace_not_append (db : DB) (chat : Int) (rs : List Int) (r : Int)
    (hwf : db.chat_state.WF) :
    (send_list_iter db chat (rs ++ [r])).chat_state.countP (fun p => p.1 == chat) = 1 ∧
    get_last_list_message_id (send_list_iter db chat (rs ++ [r])).chat_state chat = some r := by
  have hiter : send_list_iter db chat (rs ++ [r]) =
      send_list (send_list_iter db chat rs) chat r := by
    unfold send_list_iter
    rw [List.foldl_append]
    rfl
  have hwf' := send_list_iter_WF db chat rs hwf
  rw [hiter]
  exact ⟨update_last_list_message_id_count _ _ _ hwf', update_last_list_message_id_get _ _ _⟩

/-- **C5 witness**: three consecutive sends for chat 1 leave exactly one
pointer row, holding the third reference. -/
theorem c5_pointer_replace_not_append_witness :
    (send_list_iter ⟨⟨[], 0⟩, [], none⟩ 1 ([10, 20] ++ [30])).chat_state.countP
      (fun p => p.1 == 1) = 1 ∧
    get_last_list_message_id (send_list_iter ⟨⟨[], 0⟩, [], none⟩ 1 ([10, 20] ++ [30])).chat_state
      1 = some 30 :=
  c5_pointer_replace_not_append ⟨⟨[], 0⟩, [], none⟩ 1 [10, 20] 30
    (by unfold ChatState.WF; decide)

/-! ## Delete workflow (`src/handlers/delete.rs`) -/

/-- The selection update of `toggle_selection` (lines 155–159): remove
the id when present, insert it otherwise — set XOR with `{id}`. -/
def flip_selection (sel : Finset Int) (id : Int) : Finset Int :=
  if id ∈ sel then sel.erase id else insert id sel

/-- The commit loop of `process_done_callback`:
`for id in &session.selected { db.delete_item(session.chat_id, *id)? }`.
`HashSet` iteration order is unspecified; single-id deletions commute
(`delete_ids_rows` below shows the result is a filter, independent of
the order), and the model iterates in ascending order. -/
def delete_ids (st : ItemStore) (chat : Int) (ids : List Int) : ItemStore :=
  ids.foldl (fun s i => delete_item s chat i) st

/-- `toggle_selection`: look up the acting user's session (absent ⇒
ignore); reject the action when its message reference differs from the
stored DM panel reference; otherwise flip membership of the item id in
`selected` and persist it (`update_delete_selection`).  The re-render
edit of the panel is a transport call with no database effect. -/
def toggle_selection (db : DB) (msgId : Int) (id : Int) : DB :=
  match db.session with
  | none => db
  | some s =>
    if s.dm_message_id ≠ some msgId then db
    else { db with session := some { s with selected := flip_selection s.selected id } }

/-- `process_done_callback` (commit): look up the session (absent ⇒ only
the pressed message is best-effort deleted, a transport call); reject on
a stale message reference; otherwise delete every selected id from the
session's list, update the shared list message and delete the notice
(transport calls), and clear the session row. -/
def process_done_callback (db : DB) (msgId : Int) : DB :=
  match db.session with
  | none => db
  | some s =>
    if s.dm_message_id ≠ some msgId then db
    else { db with items := delete_ids db.items s.chat_id (s.selected.sort (· ≤ ·)),
                   session := none }

/-! ### The commit loop is a filter -/

theorem delete_ids_rows (st : ItemStore) (chat : Int) (ids : List Int) :
    delete_ids st chat ids =
      ⟨st.rows.filter (fun r => !(r.chat_id == chat && ids.contains r.id)), st.nextId⟩ := by
  induction ids generalizing st with
  | nil =>
    simp only [delete_ids, List.foldl_nil, List.contains_nil, Bool.and_false, Bool.not_false,
      List.filter_true]
  | cons i t ih =>
    have hstep : delete_ids st chat (i :: t) = delete_ids (delete_item st chat i) chat t := rfl
    rw [hstep, ih]
    simp only [delete_item, delete_item_count]
    rw [List.filter_filter]
    congr 1
    apply List.filter_congr
    intro r hr
    cases hc : r.chat_id == chat <;> cases hi : r.id == i <;>
      simp_all [rowMatches, List.contains_cons]

/-- **C2** Staleness rejection: when the acting user has a delete
session and an incoming toggle or commit action carries a message
reference different from the session's stored DM panel reference, both
actions leave the entire database — in particular the session's
`selected` set and the item store — unchanged. -/
theorem c2_staleness_rejection (db : DB) (s : DeleteSession) (m id : Int)
    (hs : db.session = some s) (hne : s.dm_message_id ≠ some m) :
    toggle_selection db m id = db ∧ process_done_callback db m = db := by
  unfold toggle_selection process_done_callback
  rw [hs]
  simp [hne]

/-- **C2 witness**: a session whose panel reference is 5 ignores actions
carrying reference 6. -/
theorem c2_staleness_rejection_witness :
    toggle_selection ⟨⟨[⟨1, 1, "Milk", false⟩], 2⟩, [(1, 9)], some ⟨1, {1}, none, some 5⟩⟩ 6 1 =
      ⟨⟨[⟨1, 1, "Milk", false⟩], 2⟩, [(1, 9)], some ⟨1, {1}, none, some 5⟩⟩ ∧
    process_done_callback ⟨⟨[⟨1, 1, "Milk", false⟩], 2⟩, [(1, 9)], some ⟨1, {1}, none, some 5⟩⟩ 6 =
      ⟨⟨[⟨1, 1, "Milk", false⟩], 2⟩, [(1, 9)], some ⟨1, {1}, none, some 5⟩⟩ :=
  c2_staleness_rejection _ ⟨1, {1}, none, some 5⟩ 6 1 rfl (by decide)

/-- **C3** Commit correctness: when the session's panel reference
matches the incoming action, commit removes from the item store exactly
the rows of the session's list whose ids are in `selected` (all other
rows remain), leaves `chat_state` and the id counter alone, and destroys
the session row; committing an empty `selected` set deletes no items and
still clears the session. -/
theorem c3_commit_correctness (db : DB) (s : DeleteSession) (m : Int)
    (hs : db.session = some s) (hm : s.dm_message_id = some m) :
    (process_done_callback db m).session = none ∧
    (process_done_callback db m).chat_state = db.chat_state ∧
    (process_done_callback db m).items.nextId = db.items.nextId ∧
    (process_done_callback db m).items.rows =
      db.items.rows.filter (fun r => !(r.chat_id == s.chat_id && decide (r.id ∈ s.selected))) ∧
    (s.selected = ∅ → process_done_callback db m = { db with session := none }) := by
  have hrun : process_done_callback db m =
      { db with items := delete_ids db.items s.chat_id (s.selected.sort (· ≤ ·)),
                session := none } := by
    unfold process_done_callback
    rw [hs]
    simp [hm]
  have hlist : ∀ r : ItemRow,
      (s.selected.sort (· ≤ ·)).contains r.id = decide (r.id ∈ s.selected) := by
    intro r
    by_cases h : r.id ∈ s.selected <;>
      simp [List.contains, List.elem_eq_mem, Finset.mem_sort, h]
  refine ⟨by rw [hrun], by rw [hrun], ?_, ?_, ?_⟩
  · rw [hrun]
    simp [delete_ids_rows]
  · rw [hrun]
    simp only [delete_ids_rows]
    apply List.filter_congr
    intro r hr
    rw [hlist r]
  · intro hempty
    rw [hrun, delete_ids_rows]
    have : db.items.rows.filter
        (fun r => !(r.chat_id == s.chat_id && (s.selected.sort (· ≤ ·)).contains r.id)) =
        db.items.rows := by
      rw [List.filter_eq_self]
      intro r hr
      simp [hlist r, hempty]
    rw [this]

/-- **C3 witness**: items 1,2,3 in list 7, session selecting `{2, 3}`
with panel reference 5; commit with reference 5 removes items 2 and 3,
keeps item 1, and destroys the session. -/
theorem c3_commit_correctness_witness :
    (process_done_callback ⟨⟨[⟨1, 7, "a", false⟩, ⟨2, 7, "b", true⟩, ⟨3, 7, "c", false⟩], 4⟩,
        [(7, 99)], some ⟨7, {2, 3}, none, some 5⟩⟩ 5).session = none ∧
    (process_done_callback ⟨⟨[⟨1, 7, "a", false⟩, ⟨2, 7, "b", true⟩, ⟨3, 7, "c", false⟩], 4⟩,
        [(7, 99)], some ⟨7, {2, 3}, none, some 5⟩⟩ 5).chat_state = [(7, 99)] ∧
    (process_done_callback ⟨⟨[⟨1, 7, "a", false⟩, ⟨2, 7, "b", true⟩, ⟨3, 7, "c", false⟩], 4⟩,
        [(7, 99)], some ⟨7, {2, 3}, none, some 5⟩⟩ 5).items.rows = [⟨1, 7, "a", false⟩] := by
  have h := c3_commit_correctness
    ⟨⟨[⟨1, 7, "a", false⟩, ⟨2, 7, "b", true⟩, ⟨3, 7, "c", false⟩], 4⟩,
      [(7, 99)], some ⟨7, {2, 3}, none, some 5⟩⟩ ⟨7, {2, 3}, none, some 5⟩ 5 rfl rfl
  refine ⟨h.1, h.2.1, ?_⟩
  rw [h.2.2.2.1]
  decide

/-- Iterated panel presses: `n` consecutive `toggle_selection` actions
for the same item id on the same panel message. -/
def toggle_selection_iter (db : DB) (m x : Int) : Nat → DB
  | 0 => db
  | n + 1 => toggle_selection (toggle_selection_iter db m x n) m x

theorem flip_selection_flip_selection (sel : Finset Int) (x : Int) :
    flip_selection (flip_selection sel x) x = sel := by
  unfold flip_selection
  by_cases h : x ∈ sel
  · rw [if_pos h, if_neg (Finset.not_mem_erase x sel), Finset.insert_erase h]
  · rw [if_neg h, if_pos (Finset.mem_insert_self x sel), Finset.erase_insert h]

/-- **C6** Selection XOR idempotence: on an active session whose panel
reference matches the incoming actions, `n` toggles of item id `x`
leave the database unchanged except that `selected` is the original set
when `n` is even and the original set with `x`'s membership flipped
exactly once when `n` is odd. -/
theorem c6_selection_xor_idempotence (db : DB) (s : DeleteSession) (m x : Int) (n : Nat)
    (hs : db.session = some s) (hm : s.dm_message_id = some m) :
    toggle_selection_iter db m x n =
      { db with session := some { s with selected :=
          if n % 2 = 0 then s.selected else flip_selection s.selected x } } := by
  induction n with
  | zero =>
    obtain ⟨it, cst, ses⟩ := db
    have hs' : ses = some s := hs
    subst hs'
    simp [toggle_selection_iter]
  | succ n ih =>
    have hstep : toggle_selection_iter db m x (n + 1) =
        toggle_selection (toggle_selection_iter db m x n) m x := rfl
    have hflip : flip_selection (if n % 2 = 0 then s.selected else flip_selection s.selected x) x
        = if (n + 1) % 2 = 0 then s.selected else flip_selection s.selected x := by
      by_cases hp : n % 2 = 0
      · have hodd : (n + 1) % 2 ≠ 0 := by omega
        simp [hp, hodd]
      · have heven : (n + 1) % 2 = 0 := by omega
        simp [hp, heven, flip_selection_flip_selection]
    rw [hstep, ih]
    unfold toggle_selection
    simp [hm, hflip]

/-- **C6 witness**: two toggles of id 2 on a matching panel return the
session to its original selection; a third flips it in. -/
theorem c6_selection_xor_idempotence_witness :
    toggle_selection_iter ⟨⟨[], 0⟩, [], some ⟨7, {1}, none, some 5⟩⟩ 5 2 2 =
      ⟨⟨[], 0⟩, [], some ⟨7, (if 2 % 2 = 0 then ({1} : Finset Int)
          else flip_selection {1} 2), none, some 5⟩⟩ :=
  c6_selection_xor_idempotence ⟨⟨[], 0⟩, [], some ⟨7, {1}, none, some 5⟩⟩
    ⟨7, {1}, none, some 5⟩ 5 2 2 rfl rfl

/-- **C10** Orphaned sessions with no stored panel reference are inert:
if the session row exists but `dm_message_id` is `NULL` (panel delivery
failed before the reference was stored), every toggle and every commit
action, whatever message reference it carries, leaves the whole
database unchanged — the guard compares `none` against `some ref` and
never succeeds. -/
theorem c10_orphaned_session_inert (db : DB) (s : DeleteSession) (m id : Int)
    (hs : db.session = some s) (hdm : s.dm_message_id = none) :
    toggle_selection db m id = db ∧ process_done_callback db m = db := by
  unfold toggle_selection process_done_callback
  rw [hs]
  simp [hdm]

/-- **C10 witness**: a session row with no panel reference ignores a
toggle and a commit carrying reference 5. -/
theorem c10_orphaned_session_inert_witness :
    toggle_selection ⟨⟨[⟨1, 7, "x", false⟩], 2⟩, [], some ⟨7, {1}, none, none⟩⟩ 5 1 =
      ⟨⟨[⟨1, 7, "x", false⟩], 2⟩, [], some ⟨7, {1}, none, none⟩⟩ ∧
    process_done_callback ⟨⟨[⟨1, 7, "x", false⟩], 2⟩, [], some ⟨7, {1}, none, none⟩⟩ 5 =
      ⟨⟨[⟨1, 7, "x", false⟩], 2⟩, [], some ⟨7, {1}, none, none⟩⟩ :=
  c10_orphaned_session_inert _ ⟨7, {1}, none, none⟩ 5 1 rfl rfl

/-! ## Entering delete mode (`enter_delete_mode` and its helpers) -/

/-- Outbound transport calls made on the delete-mode entry path; they
have no effect on the database. -/
inductive Eff where
  /-- Best-effort deletion of a message (`try_delete_message`). -/
  | delMsg (chat : Int) (msg : Int)
  /-- A transient, auto-expiring informational message
  (`NO_ACTIVE_LIST_TO_EDIT` or `DELETE_DM_FAILED` plus `delete_after`). -/
  | sendTransient (chat : Int)
  /-- The attempt to deliver the selection panel to the user's DM. -/
  | sendDM (user : Int)
  /-- The group-visible "user is selecting…" notice. -/
  | sendNotice (chat : Int)
deriving DecidableEq, Repr

/-- `cleanup_previous_session`: if the acting user has a session row,
best-effort delete its notice message and its DM panel message (the DM
chat id equals the user id).  It issues only transport calls — the
session row itself is left untouched — so the embedding returns the
effect trace and no new database state. -/
def cleanup_previous_session (db : DB) (user_id : Int) : List Eff :=
  match db.session with
  | none => []
  | some prev =>
    (match prev.notice with
     | some (c, msg) => [Eff.delMsg c msg]
     | none => []) ++
    (match prev.dm_message_id with
     | some dm => [Eff.delMsg user_id dm]
     | none => [])

/-- `init_delete_session`:
`INSERT INTO delete_session (user_id, chat_id, selected) VALUES (?, ?, '')
 ON CONFLICT(user_id) DO UPDATE SET chat_id=excluded.chat_id, selected='',
 notice_chat_id=NULL, notice_message_id=NULL, dm_message_id=NULL` —
either way the acting user's row becomes a fresh session for `chat`. -/
def init_delete_session (db : DB) (chat : Int) : DB :=
  { db with session := some ⟨chat, ∅, none, none⟩ }

/-- `set_delete_dm_message`:
`UPDATE delete_session SET dm_message_id = ? WHERE user_id = ?`. -/
def set_delete_dm_message (db : DB) (mid : Int) : DB :=
  { db with session := db.session.map (fun s => { s with dm_message_id := some mid }) }

/-- `set_delete_notice`:
`UPDATE delete_session SET notice_chat_id = ?, notice_message_id = ? WHERE user_id = ?`. -/
def set_delete_notice (db : DB) (chat mid : Int) : DB :=
  { db with session := db.session.map (fun s => { s with notice := some (chat, mid) }) }

/-- `start_delete_session`: initialize a fresh session row, then attempt
to deliver the selection panel to the user's DM.  Transport outcomes are
parameters: `dmOk` is whether the DM send succeeds, `dmRef` the sent
panel's reference, `noticeRef` the group notice's reference, `isPrivate`
whether the originating chat is private.  On success the panel reference
is stored, and outside a private chat a notice is posted and stored; on
failure a transient warning is posted and the fresh row keeps
`dm_message_id = NULL`. -/
def start_delete_session (db : DB) (user_id chat : Int) (isPrivate dmOk : Bool)
    (dmRef noticeRef : Int) : DB × List Eff :=
  let db1 := init_delete_session db chat
  if dmOk then
    let db2 := set_delete_dm_message db1 dmRef
    if !isPrivate then
      (set_delete_notice db2 chat noticeRef, [Eff.sendDM user_id, Eff.sendNotice chat])
    else (db2, [Eff.sendDM user_id])
  else (db1, [Eff.sendDM user_id, Eff.sendTransient chat])

/-- `enter_delete_mode`: best-effort delete the triggering command
message; stop with a transient reply when the chat has no render
pointer; otherwise clean up the previous session's messages, stop when
the list is empty, and otherwise start a new session.  (The model takes
the triggering user as given; a message without a sender returns before
cleanup.) -/
def enter_delete_mode (db : DB) (user_id chat cmdMsg : Int) (isPrivate dmOk : Bool)
    (dmRef noticeRef : Int) : DB × List Eff :=
  let eff0 := [Eff.delMsg chat cmdMsg]
  if (get_last_list_message_id db.chat_state chat).isNone then
    (db, eff0 ++ [Eff.sendTransient chat])
  else
    let effCleanup := cleanup_previous_session db user_id
    if (list_items db.items chat).isEmpty then
      (db, eff0 ++ effCleanup)
    else
      let startRes := start_delete_session db user_id chat isPrivate dmOk dmRef noticeRef
      (startRes.1, eff0 ++ effCleanup ++ startRes.2)

/-- **C4 counterexample**: chat 2 has a render pointer but no items, and
the user has a prior session.  Enter stops because the list is empty —
and the prior session record is still present, contradicting the claim
that after such an Enter no session record exists for the user. -/
theorem c4_counterexample :
    (enter_delete_mode ⟨⟨[], 0⟩, [(2, 50)], some ⟨1, {4}, some (1, 30), some 31⟩⟩
        9 2 60 false true 70 71).1.session = some ⟨1, {4}, some (1, 30), some 31⟩ ∧
    (enter_delete_mode ⟨⟨[], 0⟩, [(2, 50)], some ⟨1, {4}, some (1, 30), some 31⟩⟩
        9 2 60 false true 70 71).1.session ≠ none := by
  refine ⟨rfl, ?_⟩
  intro h
  rw [show (enter_delete_mode ⟨⟨[], 0⟩, [(2, 50)], some ⟨1, {4}, some (1, 30), some 31⟩⟩
      9 2 60 false true 70 71).1.session = some ⟨1, {4}, some (1, 30), some 31⟩ from rfl] at h
  exact Option.noConfusion h

/-- **C4 (amended)**: when Enter proceeds past the render-pointer check
and a prior session exists, the prior session's notice and panel
messages are best-effort deleted; the session record itself is not
removed at that point — it is only overwritten when a new session is
initialized — so an Enter that stops because the target list is empty
leaves the database, including the prior session record, unchanged. -/
theorem c4_enter_retires_messages_only (db : DB) (prev : DeleteSession)
    (user_id chat cmdMsg p : Int) (isPrivate dmOk : Bool) (dmRef noticeRef : Int)
    (hs : db.session = some prev)
    (hp : get_last_list_message_id db.chat_state chat = some p)
    (hempty : list_items db.items chat = []) :
    (enter_delete_mode db user_id chat cmdMsg isPrivate dmOk dmRef noticeRef).1 = db ∧
    (∀ c mref, prev.notice = some (c, mref) →
      Eff.delMsg c mref ∈
        (enter_delete_mode db user_id chat cmdMsg isPrivate dmOk dmRef noticeRef).2) ∧
    (∀ dm, prev.dm_message_id = some dm →
      Eff.delMsg user_id dm ∈
        (enter_delete_mode db user_id chat cmdMsg isPrivate dmOk dmRef noticeRef).2) := by
  have hrun : enter_delete_mode db user_id chat cmdMsg isPrivate dmOk dmRef noticeRef =
      (db, [Eff.delMsg chat cmdMsg] ++ cleanup_previous_session db user_id) := by
    unfold enter_delete_mode
    rw [hp, hempty]
    rfl
  have hclean : cleanup_previous_session db user_id =
      (match prev.notice with
       | some (c, msg) => [Eff.delMsg c msg]
       | none => []) ++
      (match prev.dm_message_id with
       | some dm => [Eff.delMsg user_id dm]
       | none => []) := by
    unfold cleanup_previous_session
    rw [hs]
  refine ⟨by rw [hrun], ?_, ?_⟩
  · intro c mref hn
    rw [hrun, hclean, hn]
    simp
  · intro dm hdm
    rw [hrun, hclean, hdm]
    cases prev.notice <;> simp

/-- **C4 (amended) witness**: a prior session with notice reference 30
in chat 1 and panel reference 31; Enter on empty chat 2 (with pointer
50) deletes both messages and leaves the database unchanged. -/
theorem c4_enter_retires_messages_only_witness :
    (enter_delete_mode ⟨⟨[], 0⟩, [(2, 50)], some ⟨1, {4}, some (1, 30), some 31⟩⟩
        9 2 60 false true 70 71).1 =
      ⟨⟨[], 0⟩, [(2, 50)], some ⟨1, {4}, some (1, 30), some 31⟩⟩ ∧
    Eff.delMsg 1 30 ∈
      (enter_delete_mode ⟨⟨[], 0⟩, [(2, 50)], some ⟨1, {4}, some (1, 30), some 31⟩⟩
        9 2 60 false true 70 71).2 ∧
    Eff.delMsg 9 31 ∈
      (enter_delete_mode ⟨⟨[], 0⟩, [(2, 50)], some ⟨1, {4}, some (1, 30), some 31⟩⟩
        9 2 60 false true 70 71).2 := by
  have h := c4_enter_retires_messages_only
    ⟨⟨[], 0⟩, [(2, 50)], some ⟨1, {4}, some (1, 30), some 31⟩⟩
    ⟨1, {4}, some (1, 30), some 31⟩ 9 2 60 50 false true 70 71 rfl rfl rfl
  exact ⟨h.1, h.2.1 1 30 rfl, h.2.2 31 rfl⟩

/-! ## List presenter (`format_list`, `src/handlers/list.rs`) -/

/-- An inline keyboard button: label text and callback data. -/
structure Button where
  text : String
  callback_data : String
deriving DecidableEq, Repr

/-- `format_list`: the toggle-mode renderer.  One line and one one-button
row per item; `all_done` is computed from the full slice, and when it
holds every mark is the "all done" variant `✅`, otherwise done items get
`☑️` and undone items `⬜`.  Callback data is the item id. -/
def format_list (items : List Item) : String × List (List Button) :=
  let all_done := items.all (fun i => i.done)
  items.foldl
    (fun acc item =>
      let markText :=
        if all_done then ("✅", "✅ " ++ item.text)
        else if item.done then ("☑️", "☑️ " ++ item.text)
        else ("⬜", "⬜ " ++ item.text)
      (acc.1 ++ markText.1 ++ " " ++ item.text ++ "\n",
       acc.2 ++ [[⟨markText.2, toString item.id⟩]]))
    ("", [])

/-- Characterization target for `format_list`'s text: the concatenated
per-item lines for a given value `b` of `all_done`. -/
def renderedLines (b : Bool) : List Item → String
  | [] => ""
  | i :: t =>
    ((if b then "✅" else if i.done then "☑️" else "⬜") ++ " " ++ i.text ++ "\n") ++
      renderedLines b t

/-- Characterization target for `format_list`'s keyboard: the per-item
button label for a given value `b` of `all_done`. -/
def renderedButton (b : Bool) (i : Item) : List Button :=
  [⟨(if b then "✅ " else if i.done then "☑️ " else "⬜ ") ++ i.text, toString i.id⟩]

theorem format_list_foldl (b : Bool) (items : List Item) (acc : String × List (List Button)) :
    items.foldl
      (fun acc item =>
        let markText :=
          if b then ("✅", "✅ " ++ item.text)
          else if item.done then ("☑️", "☑️ " ++ item.text)
          else ("⬜", "⬜ " ++ item.text)
        (acc.1 ++ markText.1 ++ " " ++ item.text ++ "\n",
         acc.2 ++ [[⟨markText.2, toString item.id⟩]])) acc =
      (acc.1 ++ renderedLines b items, acc.2 ++ items.map (renderedButton b)) := by
  induction items generalizing acc with
  | nil => simp [renderedLines]
  | cons i t ih =>
    rw [List.foldl_cons, ih]
    cases b <;> by_cases hd : i.done <;>
      simp [renderedLines, renderedButton, hd, String.append_assoc, List.append_assoc]

theorem format_list_eq (items : List Item) :
    format_list items =
      (renderedLines (items.all (fun i => i.done)) items,
       items.map (renderedButton (items.all (fun i => i.done)))) := by
  unfold format_list
  rw [format_list_foldl]
  simp

/-- **C8** All-done rendering: `format_list` is a pure function of the
item slice; on a non-empty slice where every item is done, every line
and every button label uses the all-done variant `✅`; when at least one
item is undone, every line and label instead uses the ordinary marker of
its item (`☑️` done, `⬜` undone), which differs from the all-done
variant. -/
theorem c8_all_done_rendering (items : List Item) :
    (items ≠ [] → (∀ i ∈ items, i.done = true) →
      format_list items =
        (renderedLines true items, items.map (renderedButton true)) ∧
      ∀ i ∈ items, renderedButton true i = [⟨"✅ " ++ i.text, toString i.id⟩]) ∧
    ((∃ i ∈ items, i.done = false) →
      format_list items =
        (renderedLines false items, items.map (renderedButton false)) ∧
      (∀ i ∈ items, renderedButton false i =
        [⟨(if i.done then "☑️ " else "⬜ ") ++ i.text, toString i.id⟩]) ∧
      ∀ i ∈ items, (if i.done then "☑️ " else "⬜ ") ++ i.text ≠ "✅ " ++ i.text) := by
  constructor
  · intro hne hall
    have hb : items.all (fun i => i.done) = true := List.all_eq_true.mpr hall
    refine ⟨by rw [format_list_eq, hb], ?_⟩
    intro i hi
    simp [renderedButton]
  · intro hex
    have hb : items.all (fun i => i.done) = false := by
      obtain ⟨i, hi, hdone⟩ := hex
      rw [List.all_eq_false]
      exact ⟨i, hi, by simp [hdone]⟩
    refine ⟨by rw [format_list_eq, hb], fun i hi => by simp [renderedButton], ?_⟩
    intro i hi h
    by_cases hd : i.done
    · rw [if_pos hd] at h
      have hl := congrArg (fun s => s.data.head?) h
      simp [String.data_append] at hl
    · rw [if_neg hd] at h
      have hl := congrArg (fun s => s.data.head?) h
      simp [String.data_append] at hl

/-- **C8 witness**: `[done, done]` renders with the all-done variant;
`[done, undone]` renders with the ordinary markers. -/
theorem c8_all_done_rendering_witness :
    format_list [⟨1, "a", true⟩, ⟨2, "b", true⟩] =
      (renderedLines true [⟨1, "a", true⟩, ⟨2, "b", true⟩],
       [⟨1, "a", true⟩, ⟨2, "b", true⟩].map (renderedButton true)) ∧
    format_list [⟨1, "a", true⟩, ⟨2, "b", false⟩] =
      (renderedLines false [⟨1, "a", true⟩, ⟨2, "b", false⟩],
       [⟨1, "a", true⟩, ⟨2, "b", false⟩].map (renderedButton false)) :=
  ⟨((c8_all_done_rendering [⟨1, "a", true⟩, ⟨2, "b", true⟩]).1 (by simp)
      (by simp)).1,
   ((c8_all_done_rendering [⟨1, "a", true⟩, ⟨2, "b", false⟩]).2
      ⟨⟨2, "b", false⟩, by simp, rfl⟩).1⟩

/-! ## Selected-set serialization (`src/db/delete_session.rs`)

The `selected` column is a string; the embedding models Rust strings at
the character level (`List Char`). -/

/-- Decimal digit characters of a natural number, most significant
first, modelling Rust's integer `Display` (`"0"` for zero). -/
def natChars (n : Nat) : List Char :=
  if n = 0 then ['0'] else ((Nat.digits 10 n).map Nat.digitChar).reverse

/-- Decimal representation of an `i64`, modelling `i64::to_string()`:
a `-` sign for negatives, then the decimal digits. -/
def intChars (i : Int) : List Char :=
  if i < 0 then '-' :: natChars i.natAbs else natChars i.natAbs

/-- One decimal digit as read by `str::parse::<i64>`. -/
def digit? (c : Char) : Option Nat :=
  if '0' ≤ c ∧ c ≤ '9' then some (c.toNat - 48) else none

/-- The digit-accumulation loop of `str::parse::<i64>`: any non-digit
rejects, each digit contributes `acc * 10 + d`. -/
def parseDigits : List Char → Nat → Option Nat
  | [], acc => some acc
  | c :: cs, acc =>
    match digit? c with
    | some d => parseDigits cs (10 * acc + d)
    | none => none

/-- `str::parse::<i64>` on a character list: an optional sign followed
by a nonempty string of digits. -/
def parseInt (cs : List Char) : Option Int :=
  match cs with
  | [] => none
  | c :: rest =>
    if c = '-' then
      if rest = [] then none else (parseDigits rest 0).map (fun n => -Int.ofNat n)
    else if c = '+' then
      if rest = [] then none else (parseDigits rest 0).map Int.ofNat
    else (parseDigits (c :: rest) 0).map Int.ofNat

/-- `str::split(',')` at the character level: always at least one
piece; separators at the ends produce empty pieces (so the empty string
splits into one empty piece). -/
def splitComma : List Char → List (List Char)
  | [] => [[]]
  | c :: rest =>
    match splitComma rest with
    | [] => [[]]
    | p :: ps => if c = ',' then [] :: p :: ps else (c :: p) :: ps

/-- `Vec::join(",")` at the character level. -/
def joinComma : List (List Char) → List Char
  | [] => []
  | [p] => p
  | p :: ps => p ++ ',' :: joinComma ps

/-- `parse_selected`: split the stored string on commas, keep the pieces
that parse as `i64`, and collect them into a set. -/
def parse_selected (cs : List Char) : Finset Int :=
  ((splitComma cs).filterMap parseInt).toFinset

/-- `join_selected`: sort the ids ascending, render each in decimal,
join with commas. -/
def join_selected (s : Finset Int) : List Char :=
  joinComma ((s.sort (· ≤ ·)).map intChars)

/-! ### Digit-level round trip -/

theorem digit?_digitChar {d : Nat} (hd : d < 10) :
    digit? (Nat.digitChar d) = some d := by
  interval_cases d <;> rfl

theorem digitChar_ne_comma {d : Nat} (hd : d < 10) : Nat.digitChar d ≠ ',' := by
  interval_cases d <;> decide

theorem digitChar_ne_minus {d : Nat} (hd : d < 10) : Nat.digitChar d ≠ '-' := by
  interval_cases d <;> decide

theorem digitChar_ne_plus {d : Nat} (hd : d < 10) : Nat.digitChar d ≠ '+' := by
  interval_cases d <;> decide

theorem parseDigits_map_digitChar (ds : List Nat) (hds : ∀ d ∈ ds, d < 10) (acc : Nat) :
    parseDigits (ds.map Nat.digitChar) acc =
      some (ds.foldl (fun a d => 10 * a + d) acc) := by
  induction ds generalizing acc with
  | nil => rfl
  | cons d t ih =>
    have hd : d < 10 := hds d (List.mem_cons_self d t)
    rw [List.map_cons]
    show (match digit? (Nat.digitChar d) with
      | some d => parseDigits (t.map Nat.digitChar) (10 * acc + d)
      | none => none) = _
    rw [digit?_digitChar hd]
    exact ih (fun d hd => hds d (List.mem_cons_of_mem _ hd)) (10 * acc + d)

theorem foldl_digits_reverse (L : List Nat) (acc : Nat) :
    L.reverse.foldl (fun a d => 10 * a + d) acc =
      acc * 10 ^ L.length + Nat.ofDigits 10 L := by
  induction L generalizing acc with
  | nil => simp
  | cons d t ih =>
    rw [List.reverse_cons, List.foldl_append, ih]
    simp only [List.foldl_cons, List.foldl_nil, Nat.ofDigits_cons, List.length_cons]
    ring

theorem parseDigits_natChars (n : Nat) : parseDigits (natChars n) 0 = some n := by
  unfold natChars
  by_cases h : n = 0
  · subst h
    rfl
  · rw [if_neg h, ← List.map_reverse,
      parseDigits_map_digitChar _ (fun d hd =>
        Nat.digits_lt_base (by norm_num) (List.mem_reverse.mp hd)),
      foldl_digits_reverse]
    simp [Nat.ofDigits_digits]

theorem natChars_all_digits (n : Nat) :
    ∀ c ∈ natChars n, ∃ d : Nat, d < 10 ∧ c = Nat.digitChar d := by
  intro c hc
  unfold natChars at hc
  by_cases h : n = 0
  · subst h
    simp at hc
    exact ⟨0, by norm_num, hc⟩
  · rw [if_neg h, List.mem_reverse] at hc
    obtain ⟨d, hd, rfl⟩ := List.mem_map.mp hc
    exact ⟨d, Nat.digits_lt_base (by norm_num) hd, rfl⟩

theorem natChars_ne_nil (n : Nat) : natChars n ≠ [] := by
  unfold natChars
  by_cases h : n = 0
  · simp [h]
  · rw [if_neg h]
    simp [Nat.digits_ne_nil_iff_ne_zero.mpr h]

theorem parseInt_intChars (i : Int) : parseInt (intChars i) = some i := by
  unfold intChars
  by_cases hneg : i < 0
  · rw [if_pos hneg]
    show parseInt ('-' :: natChars i.natAbs) = some i
    simp only [parseInt, reduceIte]
    rw [if_neg (natChars_ne_nil i.natAbs), parseDigits_natChars]
    show some (-Int.ofNat i.natAbs) = some i
    congr 1
    rw [Int.ofNat_eq_natCast]
    omega
  · rw [if_neg hneg]
    obtain ⟨c, rest, hcr⟩ : ∃ c rest, natChars i.natAbs = c :: rest := by
      cases hnc : natChars i.natAbs with
      | nil => exact absurd hnc (natChars_ne_nil _)
      | cons c rest => exact ⟨c, rest, rfl⟩
    obtain ⟨d, hd, hcd⟩ := natChars_all_digits i.natAbs c (hcr ▸ List.mem_cons_self c rest)
    rw [hcr]
    simp only [parseInt]
    rw [if_neg (hcd ▸ digitChar_ne_minus hd), if_neg (hcd ▸ digitChar_ne_plus hd),
      ← hcr, parseDigits_natChars]
    show some (Int.ofNat i.natAbs) = some i
    congr 1
    rw [Int.ofNat_eq_natCast]
    omega

/-! ### Comma split / join round trip -/

theorem splitComma_ne_nil (cs : List Char) : splitComma cs ≠ [] := by
  cases cs with
  | nil => simp [splitComma]
  | cons c rest =>
    cases hsp : splitComma rest with
    | nil => simp [splitComma, hsp]
    | cons p ps => by_cases hc : c = ',' <;> simp [splitComma, hsp, hc]

theorem splitComma_append_comma_free (p rest : List Char) (hp : ∀ c ∈ p, c ≠ ',') :
    splitComma (p ++ rest) =
      (p ++ (splitComma rest).headI) :: (splitComma rest).tail := by
  induction p with
  | nil =>
    simp only [List.nil_append]
    cases hsp : splitComma rest with
    | nil => exact absurd hsp (splitComma_ne_nil rest)
    | cons q qs => simp [hsp]
  | cons c p' ih =>
    have hc : c ≠ ',' := hp c (List.mem_cons_self c p')
    have ih' := ih (fun x hx => hp x (List.mem_cons_of_mem c hx))
    rw [List.cons_append]
    simp only [splitComma, ih']
    rw [if_neg hc]
    simp

theorem splitComma_joinComma (parts : List (List Char)) (hne : parts ≠ [])
    (hfree : ∀ p ∈ parts, ∀ c ∈ p, c ≠ ',') :
    splitComma (joinComma parts) = parts := by
  induction parts with
  | nil => exact absurd rfl hne
  | cons p ps ih =>
    cases ps with
    | nil =>
      have h := splitComma_append_comma_free p [] (hfree p (List.mem_cons_self p []))
      simpa [joinComma, splitComma] using h
    | cons q qs =>
      have hjoin : joinComma (p :: q :: qs) = p ++ ',' :: joinComma (q :: qs) := rfl
      rw [hjoin,
        splitComma_append_comma_free p _ (hfree p (List.mem_cons_self p (q :: qs)))]
      have hsplit : splitComma (',' :: joinComma (q :: qs)) =
          [] :: splitComma (joinComma (q :: qs)) := by
        cases hsp : splitComma (joinComma (q :: qs)) with
        | nil => exact absurd hsp (splitComma_ne_nil _)
        | cons a as => simp [splitComma, hsp]
      rw [hsplit]
      simp only [List.headI, List.tail_cons, List.append_nil]
      rw [ih (by simp) (fun r hr => hfree r (List.mem_cons_of_mem p hr))]

theorem intChars_comma_free (i : Int) : ∀ c ∈ intChars i, c ≠ ',' := by
  intro c hc
  unfold intChars at hc
  by_cases hneg : i < 0
  · rw [if_pos hneg] at hc
    rcases List.mem_cons.mp hc with rfl | hc'
    · decide
    · obtain ⟨d, hd, rfl⟩ := natChars_all_digits _ c hc'
      exact digitChar_ne_comma hd
  · rw [if_neg hneg] at hc
    obtain ⟨d, hd, rfl⟩ := natChars_all_digits _ c hc
    exact digitChar_ne_comma hd

theorem filterMap_parseInt_map_intChars (l : List Int) :
    (l.map intChars).filterMap parseInt = l := by
  induction l with
  | nil => rfl
  | cons i t ih => simp [List.filterMap_cons, parseInt_intChars, ih]

/-- **C7** Selected-set serialization round trip: for every finite set
of item ids, including the empty set, serializing with `join_selected`
(sorted, comma-delimited decimal) and parsing back with
`parse_selected` returns a set equal to the original. -/
theorem c7_selected_round_trip (s : Finset Int) :
    parse_selected (join_selected s) = s := by
  by_cases hempty : s = ∅
  · subst hempty
    rw [join_selected, Finset.sort_empty]
    rfl
  · have hsort : s.sort (· ≤ ·) ≠ [] := by
      intro h
      obtain ⟨a, ha⟩ := Finset.nonempty_iff_ne_empty.mpr hempty
      have hmem : a ∈ s.sort (· ≤ ·) := (Finset.mem_sort (· ≤ ·)).mpr ha
      rw [h] at hmem
      cases hmem
    have hfree : ∀ p ∈ (s.sort (· ≤ ·)).map intChars, ∀ c ∈ p, c ≠ ',' := by
      intro p hp
      obtain ⟨i, hi, rfl⟩ := List.mem_map.mp hp
      exact intChars_comma_free i
    have hne : (s.sort (· ≤ ·)).map intChars ≠ [] := by
      simpa using hsort
    unfold parse_selected join_selected
    rw [splitComma_joinComma _ hne hfree, filterMap_parseInt_map_intChars,
      Finset.sort_toFinset]

end VibeGrocery
